import Mathlib

/-!
# Verification of the translation cache store (`src/requests/backend/translations/data.ts`)

This development shallowly embeds the local translation cache store of the
repository: the JavaScript value model needed by the recursive partial-equality
matcher `isEqualIntersection`, and the IndexedDB-backed operations `addEntry`,
`deleteEntry`, `getEntry`, `getEntries`, `findEntry` and `deleteEntries`.

JavaScript runtime semantics relevant to the matcher are modelled explicitly:
`typeof null` is `"object"`; `Object.keys` on `null`/`undefined` throws a
`TypeError` (modelled as `none`); `Object.keys` on a number or boolean is empty;
`Object.keys` on a string is its list of index keys; property access on
`null`/`undefined` throws.  Strict equality `===` between two composite values
compares references; here a criteria value and a stored record are never the
same reference (IndexedDB hands out structured clones), so `===` on composites
is modelled as `false`.

The IndexedDB layer is modelled as a list of key/value records in ascending
primary-key order: `autoIncrement` key assignment, the non-unique secondary
index over `translation.originalText` (an index scan visits exactly the records
whose index key equals the requested key, in primary-key order), and the
read-write transaction of `deleteEntries` (writes are staged in a transaction
working state; commit makes them durable, abort discards them).
-/

namespace TranslationsData

/-- A JavaScript runtime value, as far as the store's matcher can observe it. -/
inductive JSVal : Type where
  | vStr (s : String)
  | vNum (n : Int)
  | vBool (b : Bool)
  | vNull
  | vUndefined
  | vArr (elems : List JSVal)
  | vObj (fields : List (String × JSVal))
deriving Repr

namespace JSVal

/-- `typeof v === 'object'`: true for `null`, arrays and plain objects. -/
def typeofIsObject : JSVal → Bool
  | vNull | vArr _ | vObj _ => true
  | _ => false

/-- `Array.isArray`. -/
def isArray : JSVal → Bool
  | vArr _ => true
  | _ => false

/-- Strict equality `===`.  Two primitives are compared by value.  A composite
is `===` only to itself (reference equality); a criteria value and a stored
record value are never the same reference because IndexedDB returns structured
clones, so composite-composite comparison is `false` here. -/
def strictEq : JSVal → JSVal → Bool
  | vStr a, vStr b => a == b
  | vNum a, vNum b => a == b
  | vBool a, vBool b => a == b
  | vNull, vNull => true
  | vUndefined, vUndefined => true
  | _, _ => false

end JSVal

/-- First binding of `key` in an association list (JS objects have no duplicate
keys, so this is plain property lookup). -/
def lookupField : List (String × JSVal) → String → Option JSVal
  | [], _ => none
  | (k, v) :: rest, key => if k = key then some v else lookupField rest key

/-- Property access on a string object: index keys yield one-character strings,
`length` yields the length, anything else is `undefined`.  `find?` only
produces valid indices, so the `getD` default is never used. -/
def strCharProp (s : String) (key : String) : JSVal :=
  if key = "length" then .vNum s.length
  else
    match (List.range s.length).find? (fun i => toString i = key) with
    | some i => .vStr (String.mk [s.toList.getD i ' '])
    | none => .vUndefined

/-- Property access on an array: index keys yield elements, `length` yields the
length, anything else is `undefined`. -/
def arrProp (elems : List JSVal) (key : String) : JSVal :=
  if key = "length" then .vNum elems.length
  else
    match (List.range elems.length).find? (fun i => toString i = key) with
    | some i => elems.getD i .vUndefined
    | none => .vUndefined

/-- JavaScript property access `v[key]`.  `none` models the `TypeError` thrown
when reading a property of `null` or `undefined`.  Own enumerable properties
are modelled; inherited prototype properties are not (the store's data and the
matcher never touch them). -/
def getProp : JSVal → String → Option JSVal
  | .vNull, _ => none
  | .vUndefined, _ => none
  | .vObj fields, key => some ((lookupField fields key).getD .vUndefined)
  | .vArr elems, key => some (arrProp elems key)
  | .vStr s, key => some (strCharProp s key)
  | .vNum _, _ => some .vUndefined
  | .vBool _, _ => some .vUndefined

/-- `Object.keys`.  `none` models the `TypeError` on `null`/`undefined`;
numbers and booleans have no own enumerable keys; a string's keys are its
indices; an object's keys are its fields in insertion order (the store's data
has no integer-like object keys, so JS's integer-keys-first reordering does not
arise). -/
def jsKeys : JSVal → Option (List String)
  | .vNull => none
  | .vUndefined => none
  | .vObj fields => some (fields.map Prod.fst)
  | .vArr elems => some ((List.range elems.length).map toString)
  | .vStr s => some ((List.range s.length).map toString)
  | .vNum _ => some []
  | .vBool _ => some []

mutual

/-- Nesting depth of a value: primitives are flat, a composite is one deeper
than its deepest child.  Used as the termination measure of the matcher. -/
def jsDepth : JSVal → Nat
  | .vObj fields => 1 + jsDepthFields fields
  | .vArr elems => 1 + jsDepthList elems
  | _ => 0

def jsDepthFields : List (String × JSVal) → Nat
  | [] => 0
  | kv :: rest => max (jsDepth kv.2) (jsDepthFields rest)

def jsDepthList : List JSVal → Nat
  | [] => 0
  | v :: rest => max (jsDepth v) (jsDepthList rest)

end

mutual

/-- lodash `isEqual`: full structural deep equality.  Arrays compare
element-by-element in order; objects compare by equal key sets and equal
values; primitives compare by value; mixed kinds are unequal. -/
def jsIsEqual : JSVal → JSVal → Bool
  | .vArr a, .vArr b => jsIsEqualList a b
  | .vObj a, .vObj b =>
    (a.map Prod.fst).all (fun k => (b.map Prod.fst).contains k) &&
    (b.map Prod.fst).all (fun k => (a.map Prod.fst).contains k) &&
    jsIsEqualFields a b
  | x, y => JSVal.strictEq x y

def jsIsEqualList : List JSVal → List JSVal → Bool
  | [], [] => true
  | x :: xs, y :: ys => jsIsEqual x y && jsIsEqualList xs ys
  | _, _ => false

def jsIsEqualFields : List (String × JSVal) → List (String × JSVal) → Bool
  | [], _ => true
  | (k, v) :: rest, b =>
    jsIsEqual v ((lookupField b k).getD .vUndefined) && jsIsEqualFields rest b

end

theorem lookupField_depth {l : List (String × JSVal)} {k : String} {v : JSVal}
    (h : lookupField l k = some v) : jsDepth v ≤ jsDepthFields l := by
  induction l with
  | nil => simp [lookupField] at h
  | cons kv rest ih =>
    simp only [lookupField] at h
    by_cases hk : kv.1 = k
    · rw [if_pos hk] at h
      cases h
      simp [jsDepthFields, Nat.le_max_left]
    · rw [if_neg hk] at h
      exact le_trans (ih h) (by simp [jsDepthFields, Nat.le_max_right])

theorem jsDepthList_getD (elems : List JSVal) (i : Nat) :
    jsDepth (elems.getD i .vUndefined) ≤ jsDepthList elems := by
  induction elems generalizing i with
  | nil => simp [List.getD, jsDepth, jsDepthList]
  | cons v rest ih =>
    cases i with
    | zero => simp [List.getD, jsDepthList, Nat.le_max_left]
    | succ j =>
      calc jsDepth ((v :: rest).getD (j + 1) .vUndefined)
          = jsDepth (rest.getD j .vUndefined) := by simp [List.getD]
        _ ≤ jsDepthList rest := ih j
        _ ≤ jsDepthList (v :: rest) := by simp [jsDepthList, Nat.le_max_right]

theorem getProp_depth_le {x : JSVal} {k : String} {v : JSVal}
    (h : getProp x k = some v) : jsDepth v ≤ jsDepth x := by
  cases x with
  | vNull => simp [getProp] at h
  | vUndefined => simp [getProp] at h
  | vObj fields =>
    simp only [getProp, Option.some.injEq] at h
    subst h
    cases hl : lookupField fields k with
    | none => simp [hl, jsDepth]
    | some w =>
      simp only [hl, Option.getD_some]
      calc jsDepth w ≤ jsDepthFields fields := lookupField_depth hl
        _ ≤ 1 + jsDepthFields fields := Nat.le_add_left _ _
        _ = jsDepth (.vObj fields) := by simp [jsDepth]
  | vArr elems =>
    simp only [getProp, Option.some.injEq] at h
    subst h
    unfold arrProp
    by_cases hlen : k = "length"
    · simp [hlen, jsDepth]
    · rw [if_neg hlen]
      cases hf : (List.range elems.length).find? (fun i => toString i = k) with
      | none => simp [jsDepth]
      | some i =>
        simp only []
        calc jsDepth (elems.getD i .vUndefined) ≤ jsDepthList elems :=
              jsDepthList_getD elems i
          _ ≤ 1 + jsDepthList elems := Nat.le_add_left _ _
          _ = jsDepth (.vArr elems) := by simp [jsDepth]
  | vStr s =>
    simp only [getProp, Option.some.injEq] at h
    subst h
    unfold strCharProp
    by_cases hlen : k = "length"
    · simp [hlen, jsDepth]
    · rw [if_neg hlen]
      cases hf : (List.range s.length).find? (fun i => toString i = k) with
      | none => simp [jsDepth]
      | some i => simp [jsDepth]
  | vNum n =>
    simp only [getProp, Option.some.injEq] at h
    subst h; simp [jsDepth]
  | vBool b =>
    simp only [getProp, Option.some.injEq] at h
    subst h; simp [jsDepth]

theorem getProp_depth_lt_of_object {x : JSVal} {k : String} {v : JSVal}
    (h : getProp x k = some v) (hv : v.typeofIsObject = true) :
    jsDepth v < jsDepth x := by
  cases x with
  | vNull => simp [getProp] at h
  | vUndefined => simp [getProp] at h
  | vObj fields =>
    simp only [getProp, Option.some.injEq] at h
    subst h
    cases hl : lookupField fields k with
    | none => simp [hl, JSVal.typeofIsObject] at hv
    | some w =>
      simp only [hl, Option.getD_some]
      calc jsDepth w ≤ jsDepthFields fields := lookupField_depth hl
        _ < 1 + jsDepthFields fields := by omega
        _ = jsDepth (.vObj fields) := by simp [jsDepth]
  | vArr elems =>
    simp only [getProp, Option.some.injEq] at h
    subst h
    unfold arrProp at hv ⊢
    by_cases hlen : k = "length"
    · simp [hlen, JSVal.typeofIsObject] at hv
    · rw [if_neg hlen] at hv ⊢
      cases hf : (List.range elems.length).find? (fun i => toString i = k) with
      | none => simp [hf, JSVal.typeofIsObject] at hv
      | some i =>
        simp only [hf]
        calc jsDepth (elems.getD i .vUndefined) ≤ jsDepthList elems :=
              jsDepthList_getD elems i
          _ < 1 + jsDepthList elems := by omega
          _ = jsDepth (.vArr elems) := by simp [jsDepth]
  | vStr s =>
    simp only [getProp, Option.some.injEq] at h
    subst h
    unfold strCharProp at hv
    by_cases hlen : k = "length"
    · simp [hlen, JSVal.typeofIsObject] at hv
    · rw [if_neg hlen] at hv
      cases hf : (List.range s.length).find? (fun i => toString i = k) with
      | none => simp [hf, JSVal.typeofIsObject] at hv
      | some i => simp [hf, JSVal.typeofIsObject] at hv
  | vNum n =>
    simp only [getProp, Option.some.injEq] at h
    subst h; simp [JSVal.typeofIsObject] at hv
  | vBool b =>
    simp only [getProp, Option.some.injEq] at h
    subst h; simp [JSVal.typeofIsObject] at hv

mutual

/-- Check the second object contains all properties of the first object with
equal values (`isEqualIntersection`, data.ts lines 157-175).  `none` models a
thrown `TypeError`.  Source shape: (1) if neither value has
`typeof === 'object'`, compare with `===`; (2) if both are arrays, compare
with lodash `isEqual`; (3) if exactly one is an array, `false`; (4) otherwise
require a recursive match at every key of `Object.keys(obj1)`. -/
def isEqualIntersection (obj1 obj2 : JSVal) : Option Bool :=
  if !obj1.typeofIsObject && !obj2.typeofIsObject then
    some (JSVal.strictEq obj1 obj2)
  else if obj1.isArray && obj2.isArray then
    some (jsIsEqual obj1 obj2)
  else if obj1.isArray || obj2.isArray then
    some false
  else
    match jsKeys obj1 with
    | none => none
    | some keys => everyKeyMatches obj1 obj2 keys
termination_by (jsDepth obj1 + jsDepth obj2, 1, 0)
decreasing_by
  apply Prod.Lex.right
  exact Prod.Lex.left _ _ (by omega)

/-- `Object.keys(obj1).every(key => ...)` over `isEqualIntersection` of the
two values at each key, short-circuiting on the first `false` and propagating
a thrown `TypeError` (`none`).  The comparison of two values neither of which
has `typeof === 'object'` is inlined (it is exactly the matcher's own first
branch, see `keyStep_eq_isEqualIntersection`) so that the recursion decreases
on the nesting depth. -/
def everyKeyMatches (obj1 obj2 : JSVal) (keys : List String) : Option Bool :=
  match keys with
  | [] => some true
  | key :: rest =>
    match h1 : getProp obj1 key, h2 : getProp obj2 key with
    | some v1, some v2 =>
      let r := if h : (!v1.typeofIsObject && !v2.typeofIsObject) = true
               then some (JSVal.strictEq v1 v2)
               else isEqualIntersection v1 v2
      match r with
      | some true => everyKeyMatches obj1 obj2 rest
      | some false => some false
      | none => none
    | _, _ => none
termination_by (jsDepth obj1 + jsDepth obj2, 0, keys.length)
decreasing_by
  · apply Prod.Lex.left
    have hor : v1.typeofIsObject = true ∨ v2.typeofIsObject = true := by
      cases hv : v1.typeofIsObject with
      | true => exact Or.inl rfl
      | false =>
        cases hw : v2.typeofIsObject with
        | true => exact Or.inr rfl
        | false => exact absurd (by simp [hv, hw]) h
    rcases hor with hv | hv
    · have := getProp_depth_lt_of_object h1 hv
      have := getProp_depth_le h2
      omega
    · have := getProp_depth_lt_of_object h2 hv
      have := getProp_depth_le h1
      omega
  · apply Prod.Lex.right
    exact Prod.Lex.right _ (by simp only [List.length_cons]; omega)

end

/-- For two values neither of which has `typeof === 'object'`, the matcher
takes its first branch and compares with `===`. -/
theorem isEqualIntersection_primitiveBranch (v1 v2 : JSVal)
    (h1 : v1.typeofIsObject = false) (h2 : v2.typeofIsObject = false) :
    isEqualIntersection v1 v2 = some (JSVal.strictEq v1 v2) := by
  simp [isEqualIntersection, h1, h2]

theorem everyKeyMatches_nil (o1 o2 : JSVal) :
    everyKeyMatches o1 o2 [] = some true := by
  simp [everyKeyMatches]

/-- The guard inlined in `everyKeyMatches` is exactly the matcher's first
branch: each `every` step is the recursive call
`isEqualIntersection(obj1[key], obj2[key])` of the source. -/
theorem everyKeyMatches_cons (o1 o2 : JSVal) (k : String) (rest : List String)
    {v1 v2 : JSVal} (hg1 : getProp o1 k = some v1) (hg2 : getProp o2 k = some v2) :
    everyKeyMatches o1 o2 (k :: rest) =
      match isEqualIntersection v1 v2 with
      | some true => everyKeyMatches o1 o2 rest
      | some false => some false
      | none => none := by
  rw [everyKeyMatches, hg1, hg2]
  by_cases hb : (!v1.typeofIsObject && !v2.typeofIsObject) = true
  · have hp1 : v1.typeofIsObject = false := by revert hb; cases v1.typeofIsObject <;> simp
    have hp2 : v2.typeofIsObject = false := by revert hb; cases v2.typeofIsObject <;> simp
    rw [isEqualIntersection_primitiveBranch v1 v2 hp1 hp2]
    simp only [dif_pos hb]
  · simp only [dif_neg hb]

/-- Reading a property of `null` or `undefined` throws, so an `every` step
whose property access fails makes the whole match throw. -/
theorem everyKeyMatches_cons_throw (o1 o2 : JSVal) (k : String) (rest : List String)
    (h : getProp o1 k = none ∨ getProp o2 k = none) :
    everyKeyMatches o1 o2 (k :: rest) = none := by
  rw [everyKeyMatches]
  cases hg1 : getProp o1 k with
  | none => rfl
  | some v1 =>
    cases hg2 : getProp o2 k with
    | none => rfl
    | some v2 =>
      rcases h with h | h
      · rw [hg1] at h; exact absurd h (by simp)
      · rw [hg2] at h; exact absurd h (by simp)

mutual

/-- Valid IndexedDB keys among our values: numbers, strings and arrays of
valid keys.  `null`, `undefined`, booleans and plain objects are not valid
keys; querying an index with one throws a `DataError`. -/
def isValidIDBKey : JSVal → Bool
  | .vNum _ => true
  | .vStr _ => true
  | .vArr elems => isValidIDBKeyList elems
  | _ => false

def isValidIDBKeyList : List JSVal → Bool
  | [] => true
  | v :: rest => isValidIDBKey v && isValidIDBKeyList rest

end

mutual

/-- IndexedDB key equality: keys of different kinds are unequal; numbers and
strings compare by value; array keys compare element-by-element. -/
def idbKeyEq : JSVal → JSVal → Bool
  | .vNum a, .vNum b => a == b
  | .vStr a, .vStr b => a == b
  | .vArr a, .vArr b => idbKeyEqList a b
  | _, _ => false

def idbKeyEqList : List JSVal → List JSVal → Bool
  | [], [] => true
  | x :: xs, y :: ys => idbKeyEq x y && idbKeyEqList xs ys
  | _, _ => false

end

/-- A stored translation entry (`ITranslationEntry`): the `translation`
record's fields, the creation `timestamp`, and the optional `translator`. -/
structure TranslationEntry where
  translation : List (String × JSVal)
  timestamp : Int
  translator : Option String
deriving Repr

/-- The stored entry as the JavaScript object the matcher sees; a
`translator` key is present only when the field was set. -/
def TranslationEntry.toJS (e : TranslationEntry) : JSVal :=
  .vObj ([("translation", .vObj e.translation), ("timestamp", .vNum e.timestamp)] ++
    (match e.translator with
     | some s => [("translator", .vStr s)]
     | none => []))

/-- The `translations` object store: the `autoIncrement` key generator and
the records in ascending primary-key order (records are only appended with a
fresh larger key, or filtered, so this order is invariant). -/
structure StoreState where
  nextKey : Nat
  records : List (Nat × TranslationEntry)
deriving Repr

/-- A freshly created store; IndexedDB's key generator starts at 1. -/
def StoreState.emptyStore : StoreState := ⟨1, []⟩

/-- `addEntry` (data.ts 66-69): `db.add` stores the record under the next
generator key and returns that key.  The store is created with
`keyPath: 'id'`, so the engine also injects the generated key into the raw
stored value under `id`; nothing in this repository reads that property (the
values are typed `ITranslationEntry`, and the matcher only visits the
criteria's keys), so records are modelled at their declared fields. -/
def addEntry (s : StoreState) (e : TranslationEntry) : StoreState × Nat :=
  (⟨s.nextKey + 1, s.records ++ [(s.nextKey, e)]⟩, s.nextKey)

/-- `deleteEntry` (data.ts 71-74): `db.delete` removes the record with the
given key; a missing key deletes nothing and is not an error. -/
def deleteEntry (s : StoreState) (entryId : Nat) : StoreState :=
  ⟨s.nextKey, s.records.filter (fun r => r.1 != entryId)⟩

/-- `getEntry` (data.ts 76-79): `db.get` returns the record's value, or an
absent result when there is none. -/
def getEntry (s : StoreState) (entryId : Nat) : Option TranslationEntry :=
  (s.records.find? (fun r => r.1 == entryId)).map Prod.snd

/-- Cursor direction of `getEntries`: `desc` opens the cursor with `'prev'`
(descending keys), `asc` with `'next'`. -/
inductive SortOrder where
  | asc
  | desc
deriving Repr, DecidableEq

/-- True when a positive offset was requested, so the initial cursor jump is
still to be performed. -/
def wantsJump : Option Nat → Bool
  | some f => decide (0 < f)
  | none => false

/-- The cursor loop of `getEntries` (data.ts 129-147) over the records in
traversal order: on its first iteration a positive `from` advances the cursor
by `from` positions and continues; after that, each iteration first stops if
`limit` records were already collected, else collects the current record. -/
def getEntriesLoop (fro lim : Option Nat) :
    List (Nat × TranslationEntry) → Bool → Nat → List (Nat × TranslationEntry)
  | [], _, _ => []
  | r :: rest, isJumped, counter =>
    if h : (!isJumped && wantsJump fro) = true then
      getEntriesLoop fro lim ((r :: rest).drop (fro.getD 0)) true counter
    else
      match lim with
      | some l =>
        if counter + 1 > l then []
        else r :: getEntriesLoop fro lim rest isJumped (counter + 1)
      | none => r :: getEntriesLoop fro lim rest isJumped counter
termination_by l _ _ => l.length
decreasing_by
  · have hw : wantsJump fro = true := by
      revert h; cases isJumped <;> cases hwj : wantsJump fro <;> simp
    cases fro with
    | none => simp [wantsJump] at hw
    | some f =>
      simp only [wantsJump, decide_eq_true_eq] at hw
      simp only [Option.getD_some, List.length_drop, List.length_cons]
      omega
  · simp only [List.length_cons]; omega
  · simp only [List.length_cons]; omega

/-- `getEntries` (data.ts 110-152): open a cursor over the primary keys in
the requested direction (`'prev'` traverses the records in reverse) and run
the loop with no jump performed yet and a zero counter. -/
def getEntries (s : StoreState) (fro lim : Option Nat) (order : SortOrder) :
    List (Nat × TranslationEntry) :=
  let ordered := match order with
    | .desc => s.records.reverse
    | .asc => s.records
  getEntriesLoop fro lim ordered false 0

/-- The secondary-index key of a stored entry: the value at key path
`translation.originalText` when that value is a valid key; otherwise the
record has no entry in the index. -/
def recordIndexKey (e : TranslationEntry) : Option JSVal :=
  match lookupField e.translation "originalText" with
  | some v => if isValidIDBKey v then some v else none
  | none => none

/-- Whether a record appears in the `originalText` index under key `k`. -/
def inIndexAt (k : JSVal) (r : Nat × TranslationEntry) : Bool :=
  match recordIndexKey r.2 with
  | some v => idbKeyEq v k
  | none => false

/-- `index.iterate(k)`: the records whose index key equals `k`, in ascending
primary-key order (equal index keys are ordered by primary key). -/
def indexBucket (s : StoreState) (k : JSVal) : List (Nat × TranslationEntry) :=
  s.records.filter (inIndexAt k)

/-- Errors a store operation can surface: the explicit precondition error of
`findEntry`, the engine's `DataError` for an invalid key argument, and a
JavaScript `TypeError` escaping the matcher.  One engine behaviour is
deliberately outside the modelled scope: `index.iterate(query)` with a
`null`/`undefined` query iterates the whole index rather than throwing, but
no typed caller can produce it — `findEntry` rejects an `undefined`
`originalText` before touching the index, `ITranslation` requires a string
`originalText`, and neither type admits `null` — so the model maps the
remaining invalid-key queries to `DataError`. -/
inductive DBError where
  | missingOriginalText
  | dataError
  | typeError
deriving Repr, DecidableEq

/-- `typeof v === 'undefined'` test used to model `=== undefined`. -/
def JSVal.isUndef : JSVal → Bool
  | .vUndefined => true
  | _ => false

/-- `entry?.translation?.originalText` (data.ts 183): optional chaining
yields `undefined` when a link is `null`/`undefined` and never throws. -/
def criteriaOriginalText (c : JSVal) : JSVal :=
  match c with
  | .vNull | .vUndefined => .vUndefined
  | _ =>
    match (getProp c "translation").getD .vUndefined with
    | .vNull | .vUndefined => .vUndefined
    | t => (getProp t "originalText").getD .vUndefined

/-- The scan of `findEntry` (data.ts 191-202): test each index candidate
with the matcher against the whole entry, return the first match and stop, or
propagate a thrown `TypeError`. -/
def findLoop (c : JSVal) :
    List (Nat × TranslationEntry) → Except DBError (Option (Nat × TranslationEntry))
  | [] => .ok none
  | r :: rest =>
    match isEqualIntersection c r.2.toJS with
    | none => .error .typeError
    | some true => .ok (some r)
    | some false => findLoop c rest

/-- `findEntry` (data.ts 177-207): require `criteria.translation.originalText`
to be defined (otherwise the explicit precondition error, raised before the
store is consulted), open the `originalText` index at that key (an invalid
key value is a `DataError`), and return the first matching candidate or an
absent result. -/
def findEntry (s : StoreState) (c : JSVal) :
    Except DBError (Option (Nat × TranslationEntry)) :=
  let ot := criteriaOriginalText c
  if ot.isUndef then .error .missingOriginalText
  else if isValidIDBKey ot then findLoop c (indexBucket s ot)
  else .error .dataError

/-- The candidate test of `deleteEntries` (data.ts 90-94):
`Object.keys(entry).every(key => entry[key] === currentEntry.translation[key])`,
shallow strict equality at each top-level criteria key.  Both property reads
are on plain objects and cannot throw. -/
def deleteMatches (cf t : List (String × JSVal)) : Bool :=
  (cf.map Prod.fst).all (fun k =>
    JSVal.strictEq ((lookupField cf k).getD .vUndefined)
      ((lookupField t k).getD .vUndefined))

/-- The working state of the `deleteEntries` read-write transaction: the
records as the transaction sees them, and the index candidates the cursor has
not visited yet.  Writes are staged here; only a commit makes them durable. -/
structure DeleteTxn where
  working : List (Nat × TranslationEntry)
  pending : List (Nat × TranslationEntry)
deriving Repr

/-- One cursor iteration of `deleteEntries` (data.ts 87-97): if the current
candidate matches, `cursor.delete()` removes the record at the cursor from
the transaction's view; the cursor then advances. -/
def deleteStep (cf : List (String × JSVal)) (t : DeleteTxn) : DeleteTxn :=
  match t.pending with
  | [] => t
  | r :: rest =>
    { working := if deleteMatches cf r.2.translation
                 then t.working.filter (fun q => q.1 != r.1)
                 else t.working
      pending := rest }

/-- Run `n` cursor iterations of the deletion transaction. -/
def deleteRun (cf : List (String × JSVal)) (t : DeleteTxn) : Nat → DeleteTxn
  | 0 => t
  | n + 1 => deleteRun cf (deleteStep cf t) n

/-- The transaction opened by `deleteEntries`: its working state starts at
the durable records; the cursor ranges over the index bucket at the
criteria's `originalText`. -/
def deleteTxnOpen (s : StoreState) (ot : JSVal) : DeleteTxn :=
  ⟨s.records, indexBucket s ot⟩

/-- `await transaction.done`: committing makes the staged writes durable. -/
def commitTxn (s : StoreState) (t : DeleteTxn) : StoreState :=
  ⟨s.nextKey, t.working⟩

/-- An aborted transaction discards every staged write: the durable state is
the pre-transaction state, whatever the abort point was. -/
def abortTxn (s : StoreState) (_t : DeleteTxn) : StoreState :=
  s

/-- `deleteEntries` (data.ts 81-100): one read-write transaction iterates
the `originalText` index at `entry.originalText`, deletes every candidate
whose `translation` passes the shallow key test, then commits. -/
def deleteEntries (s : StoreState) (cf : List (String × JSVal)) :
    Except DBError StoreState :=
  let ot := (lookupField cf "originalText").getD .vUndefined
  if isValidIDBKey ot then
    let txn := deleteTxnOpen s ot
    .ok (commitTxn s (deleteRun cf txn txn.pending.length))
  else .error .dataError

/-- `deleteEntries` interrupted by a failure after `j` cursor iterations:
the transaction aborts and every staged deletion is discarded. -/
def deleteEntriesFailAt (s : StoreState) (cf : List (String × JSVal))
    (j : Nat) : StoreState :=
  let ot := (lookupField cf "originalText").getD .vUndefined
  abortTxn s (deleteRun cf (deleteTxnOpen s ot) j)

/-! ## Helper lemmas -/

theorem lookupField_mem {l : List (String × JSVal)} {k : String} {v : JSVal}
    (h : lookupField l k = some v) : (k, v) ∈ l := by
  induction l with
  | nil => simp [lookupField] at h
  | cons kv rest ih =>
    obtain ⟨a, b⟩ := kv
    simp only [lookupField] at h
    by_cases hk : a = k
    · rw [if_pos hk] at h
      cases h
      subst hk
      exact List.mem_cons_self _ _
    · rw [if_neg hk] at h
      exact List.mem_cons_of_mem _ (ih h)

theorem lookupField_isSome_of_mem_keys {l : List (String × JSVal)} {k : String}
    (h : k ∈ l.map Prod.fst) : ∃ v, lookupField l k = some v := by
  induction l with
  | nil => simp at h
  | cons kv rest ih =>
    simp only [List.map_cons, List.mem_cons] at h
    by_cases hk : kv.1 = k
    · exact ⟨kv.2, by simp [lookupField, hk]⟩
    · have hmem : k ∈ rest.map Prod.fst := by
        rcases h with h | h
        · exact absurd h.symm hk
        · exact h
      obtain ⟨v, hv⟩ := ih hmem
      exact ⟨v, by simp [lookupField, hk, hv]⟩

/-- Records with pairwise-distinct keys are determined by their key. -/
theorem eq_of_mem_of_nodupKeys {l : List (Nat × TranslationEntry)}
    (hnd : (l.map Prod.fst).Nodup) {q r : Nat × TranslationEntry}
    (hq : q ∈ l) (hr : r ∈ l) (hkey : q.1 = r.1) : q = r := by
  induction l with
  | nil => simp at hq
  | cons a rest ih =>
    simp only [List.map_cons, List.nodup_cons] at hnd
    rcases List.mem_cons.mp hq with hq1 | hq1 <;>
      rcases List.mem_cons.mp hr with hr1 | hr1
    · rw [hq1, hr1]
    · exfalso
      apply hnd.1
      rw [hq1] at hkey
      rw [hkey]
      exact List.mem_map_of_mem Prod.fst hr1
    · exfalso
      apply hnd.1
      rw [hr1] at hkey
      rw [← hkey]
      exact List.mem_map_of_mem Prod.fst hq1
    · exact ih hnd.2 hq1 hr1

/-! ## Pagination: characterizing the cursor loop -/

theorem getEntriesLoop_collect_noLimit (fro : Option Nat)
    (l : List (Nat × TranslationEntry)) (b : Bool) (c : Nat)
    (hnj : (!b && wantsJump fro) = false) :
    getEntriesLoop fro none l b c = l := by
  induction l generalizing c with
  | nil => simp [getEntriesLoop]
  | cons r rest ih =>
    rw [getEntriesLoop.eq_def]
    dsimp only
    rw [dif_neg (by simp [hnj])]
    simpa using ih (c := c)

theorem getEntriesLoop_collect_limit (fro : Option Nat) (lm : Nat)
    (l : List (Nat × TranslationEntry)) (b : Bool) (c : Nat)
    (hnj : (!b && wantsJump fro) = false) :
    getEntriesLoop fro (some lm) l b c = l.take (lm - c) := by
  induction l generalizing c with
  | nil => simp [getEntriesLoop]
  | cons r rest ih =>
    rw [getEntriesLoop.eq_def]
    dsimp only
    rw [dif_neg (by simp [hnj])]
    by_cases hc : c + 1 > lm
    · rw [if_pos hc]
      have hz : lm - c = 0 := by omega
      simp [hz]
    · rw [if_neg hc]
      have h1 : lm - c = (lm - (c + 1)) + 1 := by omega
      rw [h1]
      simpa [List.take_succ_cons] using ih (c := c + 1)

/-- The cursor loop started fresh collects exactly a `drop`/`take` slice of
the traversal order: skip `from` records, then collect up to `limit`. -/
theorem getEntriesLoop_spec (fro lim : Option Nat)
    (l : List (Nat × TranslationEntry)) :
    getEntriesLoop fro lim l false 0 =
      (match lim with
       | some lm => (l.drop (fro.getD 0)).take lm
       | none => l.drop (fro.getD 0)) := by
  cases hw : wantsJump fro with
  | false =>
    have hdrop : l.drop (fro.getD 0) = l := by
      cases fro with
      | none => simp
      | some f =>
        simp only [wantsJump] at hw
        have hf : ¬0 < f := of_decide_eq_false hw
        have : f = 0 := by omega
        simp [this]
    rw [hdrop]
    cases lim with
    | none => exact getEntriesLoop_collect_noLimit fro l false 0 (by simp [hw])
    | some lm =>
      simpa using getEntriesLoop_collect_limit fro lm l false 0 (by simp [hw])
  | true =>
    cases l with
    | nil => cases lim <;> simp [getEntriesLoop]
    | cons r rest =>
      rw [getEntriesLoop.eq_def]
      dsimp only
      rw [dif_pos (by simp [hw])]
      cases lim with
      | none =>
        exact getEntriesLoop_collect_noLimit fro ((r :: rest).drop (fro.getD 0))
          true 0 (by simp)
      | some lm =>
        simpa using getEntriesLoop_collect_limit fro lm
          ((r :: rest).drop (fro.getD 0)) true 0 (by simp)

/-! ## Bulk deletion: characterizing the transaction loop -/

theorem deleteRun_spec (cf : List (String × JSVal)) :
    ∀ (p w : List (Nat × TranslationEntry)),
      deleteRun cf ⟨w, p⟩ p.length =
        ⟨w.filter (fun q =>
            !(p.any (fun r => q.1 == r.1 && deleteMatches cf r.2.translation))), []⟩ := by
  intro p
  induction p with
  | nil =>
    intro w
    simp [deleteRun]
  | cons r rest ih =>
    intro w
    have hstep : deleteRun cf ⟨w, r :: rest⟩ (r :: rest).length =
        deleteRun cf (deleteStep cf ⟨w, r :: rest⟩) rest.length := by
      simp [deleteRun, List.length_cons]
    rw [hstep]
    by_cases hm : deleteMatches cf r.2.translation
    · have hstep2 : deleteStep cf ⟨w, r :: rest⟩ =
          ⟨w.filter (fun q => q.1 != r.1), rest⟩ := by
        simp [deleteStep, hm]
      rw [hstep2, ih]
      congr 1
      rw [List.filter_filter]
      apply List.filter_congr
      intro q _
      cases hqa : (q.1 == r.1) <;>
        cases hra : rest.any (fun x => q.1 == x.1 && deleteMatches cf x.2.translation) <;>
          simp [hm, hqa, hra, bne]
    · have hstep2 : deleteStep cf ⟨w, r :: rest⟩ = ⟨w, rest⟩ := by
        simp [deleteStep, hm]
      rw [hstep2, ih]
      congr 1
      apply List.filter_congr
      intro q _
      simp [hm]

/-- With a valid `originalText` key and pairwise-distinct primary keys,
`deleteEntries` commits the store with exactly the records that are not both
in the index bucket and shallow-matched by the criteria. -/
theorem deleteEntries_ok (s : StoreState) (cf : List (String × JSVal)) {ot : JSVal}
    (hot : (lookupField cf "originalText").getD .vUndefined = ot)
    (hvalid : isValidIDBKey ot = true)
    (hnodup : (s.records.map Prod.fst).Nodup) :
    deleteEntries s cf =
      .ok ⟨s.nextKey, s.records.filter (fun r =>
        !(inIndexAt ot r && deleteMatches cf r.2.translation))⟩ := by
  simp only [deleteEntries, hot]
  rw [if_pos hvalid]
  simp only [deleteTxnOpen]
  rw [deleteRun_spec cf (indexBucket s ot) s.records]
  simp only [commitTxn, Except.ok.injEq, StoreState.mk.injEq, true_and]
  apply List.filter_congr
  intro q hq
  have hiff :
      (indexBucket s ot).any
          (fun r => q.1 == r.1 && deleteMatches cf r.2.translation) =
        (inIndexAt ot q && deleteMatches cf q.2.translation) := by
    rw [Bool.eq_iff_iff]
    constructor
    · intro hany
      obtain ⟨r, hrmem, hr⟩ := List.any_eq_true.mp hany
      obtain ⟨hkeq, hdm⟩ : (q.1 == r.1) = true ∧
          deleteMatches cf r.2.translation = true := by simpa using hr
      have hrrec : r ∈ s.records := List.mem_of_mem_filter hrmem
      have hridx : inIndexAt ot r = true := List.of_mem_filter hrmem
      have : q = r := eq_of_mem_of_nodupKeys hnodup hq hrrec (by
        simpa using hkeq)
      subst this
      simp [hridx, hdm]
    · intro hqq
      obtain ⟨hqidx, hqdm⟩ : inIndexAt ot q = true ∧
          deleteMatches cf q.2.translation = true := by simpa using hqq
      apply List.any_eq_true.mpr
      refine ⟨q, ?_, ?_⟩
      · exact List.mem_filter.mpr ⟨hq, hqidx⟩
      · simp [hqdm]
  rw [hiff]

/-! ## findEntry: characterizing the index scan -/

theorem findLoop_eq_find (c : JSVal) :
    ∀ (l : List (Nat × TranslationEntry)),
      (∀ r ∈ l, isEqualIntersection c r.2.toJS ≠ none) →
      findLoop c l =
        .ok (l.find? (fun r => isEqualIntersection c r.2.toJS == some true)) := by
  intro l
  induction l with
  | nil => intro _; simp [findLoop]
  | cons r rest ih =>
    intro hno
    cases hi : isEqualIntersection c r.2.toJS with
    | none => exact absurd hi (hno r (List.mem_cons_self _ _))
    | some b =>
      cases b with
      | true => simp [findLoop, hi, List.find?_cons]
      | false =>
        simp only [findLoop, hi]
        rw [ih (fun q hq => hno q (List.mem_cons_of_mem _ hq))]
        simp [List.find?_cons, hi]

/-- On keys where both property values are non-`'object'`-typeof, the `every`
loop is the conjunction of the strict equalities. -/
theorem everyKeyMatches_flat (o1 o2 : JSVal) :
    ∀ (keys : List String),
      (∀ k ∈ keys, ∃ v1 v2, getProp o1 k = some v1 ∧ getProp o2 k = some v2 ∧
        v1.typeofIsObject = false ∧ v2.typeofIsObject = false) →
      everyKeyMatches o1 o2 keys =
        some (keys.all (fun k =>
          JSVal.strictEq ((getProp o1 k).getD .vUndefined)
            ((getProp o2 k).getD .vUndefined))) := by
  intro keys
  induction keys with
  | nil => intro _; simp [everyKeyMatches_nil]
  | cons k rest ih =>
    intro hwf
    obtain ⟨v1, v2, hg1, hg2, ht1, ht2⟩ := hwf k (List.mem_cons_self _ _)
    rw [everyKeyMatches_cons o1 o2 k rest hg1 hg2]
    rw [isEqualIntersection_primitiveBranch v1 v2 ht1 ht2]
    rw [ih (fun q hq => hwf q (List.mem_cons_of_mem _ hq))]
    cases hse : JSVal.strictEq v1 v2 with
    | true => simp [List.all_cons, hg1, hg2, hse]
    | false => simp [List.all_cons, hg1, hg2, hse]

/-! ## Well-typed criteria and entries -/

/-- A `DeepPartial` flat string field: a string or an explicit `undefined`. -/
def strOrUndef : JSVal → Bool
  | .vStr _ => true
  | .vUndefined => true
  | _ => false

/-- Modelled from the spec: the shape of `ITranslation` (spec §3: "a
structured record — at minimum `originalText` (string), `translatedText`
(string), source/target language codes"), whose defining file is not among
the given sources — a flat record of string-valued fields with arbitrary
field names. -/
def translationWF (t : List (String × JSVal)) : Bool :=
  t.all (fun kv =>
    match kv.2 with
    | .vStr _ => true
    | _ => false)

/-- A well-typed stored entry: its `translation` is a flat string record. -/
def entryWF (e : TranslationEntry) : Bool :=
  translationWF e.translation

/-- Typed `findEntry` criteria, the shape `DeepPartial<ITranslationEntry>`:
only the keys `translation` (a partial flat string record, or undefined),
`timestamp` (a number, or undefined) and `translator` (a string, or
undefined). -/
def criteriaWF (c : JSVal) : Bool :=
  match c with
  | .vObj fields =>
    fields.all (fun kv =>
      (kv.1 == "translation" &&
        (match kv.2 with
         | .vObj tf => tf.all (fun kv2 => strOrUndef kv2.2)
         | .vUndefined => true
         | _ => false)) ||
      (kv.1 == "timestamp" &&
        (match kv.2 with
         | .vNum _ => true
         | .vUndefined => true
         | _ => false)) ||
      (kv.1 == "translator" && strOrUndef kv.2))
  | _ => false

theorem toJS_lookup_translation (e : TranslationEntry) :
    lookupField
        ([("translation", .vObj e.translation), ("timestamp", .vNum e.timestamp)] ++
          (match e.translator with
           | some s => [("translator", .vStr s)]
           | none => []))
        "translation" = some (.vObj e.translation) := by
  simp [lookupField]

theorem toJS_lookup_timestamp (e : TranslationEntry) :
    lookupField
        ([("translation", .vObj e.translation), ("timestamp", .vNum e.timestamp)] ++
          (match e.translator with
           | some s => [("translator", .vStr s)]
           | none => []))
        "timestamp" = some (.vNum e.timestamp) := by
  simp [lookupField]

theorem toJS_lookup_translator (e : TranslationEntry) :
    ((lookupField
        ([("translation", .vObj e.translation), ("timestamp", .vNum e.timestamp)] ++
          (match e.translator with
           | some s => [("translator", .vStr s)]
           | none => []))
        "translator").getD .vUndefined).typeofIsObject = false := by
  cases ht : e.translator with
  | none => simp [lookupField, JSVal.typeofIsObject]
  | some s => simp [lookupField, JSVal.typeofIsObject]

/-- The matcher never throws on two flat string records (every key compares
two primitives). -/
theorem iei_flatObj_ne_none (tf et : List (String × JSVal))
    (h1 : tf.all (fun kv => strOrUndef kv.2) = true)
    (h2 : translationWF et = true) :
    isEqualIntersection (.vObj tf) (.vObj et) ≠ none := by
  have hexp : isEqualIntersection (.vObj tf) (.vObj et) =
      everyKeyMatches (.vObj tf) (.vObj et) (tf.map Prod.fst) := by
    simp [isEqualIntersection, JSVal.typeofIsObject, JSVal.isArray, jsKeys]
  rw [hexp, everyKeyMatches_flat]
  · simp
  · intro k hk
    obtain ⟨v, hv⟩ := lookupField_isSome_of_mem_keys hk
    have hvwf : strOrUndef v = true :=
      List.all_eq_true.mp h1 (k, v) (lookupField_mem hv)
    have ht1 : v.typeofIsObject = false := by
      cases v <;> simp_all [strOrUndef, JSVal.typeofIsObject]
    refine ⟨v, (lookupField et k).getD .vUndefined, by simp [getProp, hv],
      by simp [getProp], ht1, ?_⟩
    cases hl2 : lookupField et k with
    | none => simp [JSVal.typeofIsObject]
    | some w =>
      have hwwf := List.all_eq_true.mp h2 (k, w) (lookupField_mem hl2)
      cases w <;> simp_all [JSVal.typeofIsObject]

theorem everyKeyMatches_ne_none (o1 o2 : JSVal) :
    ∀ (keys : List String),
      (∀ k ∈ keys, ∃ v1 v2, getProp o1 k = some v1 ∧ getProp o2 k = some v2 ∧
        isEqualIntersection v1 v2 ≠ none) →
      everyKeyMatches o1 o2 keys ≠ none := by
  intro keys
  induction keys with
  | nil => intro _; simp [everyKeyMatches_nil]
  | cons k rest ih =>
    intro h
    obtain ⟨v1, v2, hg1, hg2, hne⟩ := h k (List.mem_cons_self _ _)
    rw [everyKeyMatches_cons o1 o2 k rest hg1 hg2]
    cases hi : isEqualIntersection v1 v2 with
    | none => exact absurd hi hne
    | some b =>
      cases b with
      | true => exact ih (fun q hq => h q (List.mem_cons_of_mem _ hq))
      | false => simp

/-- Typed criteria yield an `originalText` that is either `undefined` or a
string coming from a well-formed partial `translation` record. -/
theorem criteriaOriginalText_shape (c : JSVal) (hc : criteriaWF c = true) :
    criteriaOriginalText c = .vUndefined ∨
    (∃ t tf, criteriaOriginalText c = .vStr t ∧
      getProp c "translation" = some (.vObj tf) ∧
      tf.all (fun kv => strOrUndef kv.2) = true) := by
  cases c with
  | vObj fields =>
    cases hl : lookupField fields "translation" with
    | none =>
      left
      simp [criteriaOriginalText, getProp, hl]
    | some v =>
      have hv := List.all_eq_true.mp hc ("translation", v) (lookupField_mem hl)
      simp only [Bool.or_eq_true, Bool.and_eq_true, beq_iff_eq,
        String.reduceEq, false_and, or_false, false_or, true_and] at hv
      cases v with
      | vUndefined =>
        left
        simp [criteriaOriginalText, getProp, hl]
      | vObj tf =>
        cases hlo : lookupField tf "originalText" with
        | none =>
          left
          simp [criteriaOriginalText, getProp, hl, hlo]
        | some w =>
          have hwwf : strOrUndef w = true :=
            List.all_eq_true.mp hv ("originalText", w) (lookupField_mem hlo)
          cases w with
          | vStr t =>
            right
            exact ⟨t, tf, by simp [criteriaOriginalText, getProp, hl, hlo],
              by simp [getProp, hl], hv⟩
          | vUndefined =>
            left
            simp [criteriaOriginalText, getProp, hl, hlo]
          | vNum n => simp [strOrUndef] at hwwf
          | vBool b => simp [strOrUndef] at hwwf
          | vNull => simp [strOrUndef] at hwwf
          | vArr a => simp [strOrUndef] at hwwf
          | vObj o => simp [strOrUndef] at hwwf
      | vStr s => simp at hv
      | vNum n => simp at hv
      | vBool b => simp at hv
      | vNull => simp at hv
      | vArr a => simp at hv
  | vStr s => simp [criteriaWF] at hc
  | vNum n => simp [criteriaWF] at hc
  | vBool b => simp [criteriaWF] at hc
  | vNull => simp [criteriaWF] at hc
  | vUndefined => simp [criteriaWF] at hc
  | vArr a => simp [criteriaWF] at hc

/-- With typed criteria whose `translation` is present as a partial record,
and a well-typed entry, the matcher returns a boolean (never throws). -/
theorem iei_criteria_entry_ne_none (fields : List (String × JSVal))
    (e : TranslationEntry) (hc : criteriaWF (.vObj fields) = true)
    {tf : List (String × JSVal)}
    (ht : lookupField fields "translation" = some (.vObj tf))
    (he : entryWF e = true) :
    isEqualIntersection (.vObj fields) e.toJS ≠ none := by
  have hexp : isEqualIntersection (.vObj fields) e.toJS =
      everyKeyMatches (.vObj fields) e.toJS (fields.map Prod.fst) := by
    simp [isEqualIntersection, TranslationEntry.toJS, JSVal.typeofIsObject,
      JSVal.isArray, jsKeys]
  rw [hexp]
  apply everyKeyMatches_ne_none
  intro k hk
  obtain ⟨v, hv⟩ := lookupField_isSome_of_mem_keys hk
  have hg1 : getProp (.vObj fields) k = some v := by simp [getProp, hv]
  have hall := List.all_eq_true.mp hc (k, v) (lookupField_mem hv)
  simp only [Bool.or_eq_true, Bool.and_eq_true, beq_iff_eq] at hall
  rcases hall with (⟨hk1, hsh⟩ | ⟨hk1, hsh⟩) | ⟨hk1, hsh⟩
  · subst hk1
    have hveq : v = .vObj tf := Option.some.inj (hv.symm.trans ht)
    subst hveq
    refine ⟨.vObj tf, .vObj e.translation, hg1, ?_, ?_⟩
    · simp [getProp, TranslationEntry.toJS, lookupField]
    · exact iei_flatObj_ne_none tf e.translation (by simpa using hsh) he
  · subst hk1
    refine ⟨v, .vNum e.timestamp, hg1, ?_, ?_⟩
    · simp [getProp, TranslationEntry.toJS, lookupField]
    · have ht1 : v.typeofIsObject = false := by
        cases v <;> simp_all [JSVal.typeofIsObject]
      rw [isEqualIntersection_primitiveBranch v _ ht1
        (by simp [JSVal.typeofIsObject])]
      simp
  · subst hk1
    refine ⟨v, ((lookupField
        ([("translation", .vObj e.translation), ("timestamp", .vNum e.timestamp)] ++
          (match e.translator with
           | some s => [("translator", .vStr s)]
           | none => []))
        "translator").getD .vUndefined), hg1,
      by simp [getProp, TranslationEntry.toJS], ?_⟩
    have ht1 : v.typeofIsObject = false := by
      cases v <;> simp_all [strOrUndef, JSVal.typeofIsObject]
    rw [isEqualIntersection_primitiveBranch _ _ ht1 (toJS_lookup_translator e)]
    simp

/-! ## Sample data for concrete instantiations -/

/-- A flat, well-typed entry with `originalText = "x"`. -/
def sampleEntryX : TranslationEntry :=
  ⟨[("originalText", .vStr "x"), ("translatedText", .vStr "y")], 5, none⟩

/-- A store holding exactly `sampleEntryX` under key 1. -/
def sampleStore1 : StoreState := ⟨2, [(1, sampleEntryX)]⟩

/-- A second flat entry with `originalText = "z"`. -/
def sampleEntryZ : TranslationEntry :=
  ⟨[("originalText", .vStr "z"), ("translatedText", .vStr "w")], 6, some "g"⟩

/-- A store holding `sampleEntryX` under key 1 and `sampleEntryZ` under 2. -/
def sampleStore2 : StoreState := ⟨3, [(1, sampleEntryX), (2, sampleEntryZ)]⟩

/-- An entry whose translation has a nested composite field. -/
def nestedEntry : TranslationEntry :=
  ⟨[("originalText", .vStr "x"), ("detail", .vObj [("a", .vNum 1)])], 0, none⟩

/-- A store holding exactly `nestedEntry` under key 1. -/
def nestedStore : StoreState := ⟨2, [(1, nestedEntry)]⟩

/-- Deletion criteria structurally equal to `nestedEntry.translation`. -/
def nestedCriteria : List (String × JSVal) :=
  [("originalText", .vStr "x"), ("detail", .vObj [("a", .vNum 1)])]

/-- Flat deletion criteria selecting `originalText = "x"`. -/
def flatCriteriaX : List (String × JSVal) := [("originalText", .vStr "x")]

/-- `findEntry` criteria `{ translation: { originalText: "x" } }`. -/
def sampleCriteriaX : JSVal :=
  .vObj [("translation", .vObj [("originalText", .vStr "x")])]

/-- A value is a primitive (not a keyed record, not a sequence). -/
def isPrimitive : JSVal → Bool
  | .vObj _ => false
  | .vArr _ => false
  | _ => true

/-! ## Claim theorems -/

/-- C3 counterexample: partial-match of `null` against `null` does not return
`true` — `typeof null` is `'object'`, so the comparison falls through to
`Object.keys(null)`, which throws a `TypeError` (modelled as `none`). -/
theorem C3_null_null_throws :
    isEqualIntersection .vNull .vNull = none ∧
    isEqualIntersection .vNull .vNull ≠ some true := by
  constructor
  · simp [isEqualIntersection, JSVal.typeofIsObject, JSVal.isArray, jsKeys]
  · simp [isEqualIntersection, JSVal.typeofIsObject, JSVal.isArray, jsKeys]

/-- C3 (amended): for every pair of primitives neither of which is `null`,
partial-match returns the boolean `criteria === candidate`; for the pair
`(null, null)` the comparison throws a `TypeError` instead of returning a
boolean, because `typeof null` is `'object'`. -/
theorem C3_primitives_strictEq :
    (∀ v1 v2 : JSVal, isPrimitive v1 = true → isPrimitive v2 = true →
      v1 ≠ .vNull → v2 ≠ .vNull →
      isEqualIntersection v1 v2 = some (JSVal.strictEq v1 v2)) ∧
    isEqualIntersection .vNull .vNull = none := by
  constructor
  · intro v1 v2 h1 h2 hn1 hn2
    apply isEqualIntersection_primitiveBranch
    · cases v1 <;> simp_all [isPrimitive, JSVal.typeofIsObject]
    · cases v2 <;> simp_all [isPrimitive, JSVal.typeofIsObject]
  · simp [isEqualIntersection, JSVal.typeofIsObject, JSVal.isArray, jsKeys]

/-- C3 witness: the amended theorem applied to the primitives `"a"` and `3`. -/
theorem C3_primitives_strictEq_witness :
    isPrimitive (.vStr "a") = true ∧ isPrimitive (.vNum 3) = true ∧
    JSVal.vStr "a" ≠ .vNull ∧ JSVal.vNum 3 ≠ .vNull ∧
    isEqualIntersection (.vStr "a") (.vNum 3) =
      some (JSVal.strictEq (.vStr "a") (.vNum 3)) :=
  ⟨rfl, rfl, by simp, by simp,
    C3_primitives_strictEq.1 (.vStr "a") (.vNum 3) rfl rfl (by simp) (by simp)⟩

/-- C4: partial-match is one-directional for keyed records and fully
order-sensitive for sequences: `{a:1}` matches into `{a:1,b:2}` but not the
other way around; `[1,2]` does not match `[1,2,3]`; and whenever exactly one
of the two values is a sequence the result is `false`. -/
theorem C4_asymmetry :
    isEqualIntersection (.vObj [("a", .vNum 1)])
      (.vObj [("a", .vNum 1), ("b", .vNum 2)]) = some true ∧
    isEqualIntersection (.vObj [("a", .vNum 1), ("b", .vNum 2)])
      (.vObj [("a", .vNum 1)]) = some false ∧
    isEqualIntersection (.vArr [.vNum 1, .vNum 2])
      (.vArr [.vNum 1, .vNum 2, .vNum 3]) = some false ∧
    (∀ v1 v2 : JSVal, v1.isArray ≠ v2.isArray →
      isEqualIntersection v1 v2 = some false) := by
  refine ⟨?_, ?_, ?_, ?_⟩
  · simp [isEqualIntersection, everyKeyMatches_cons, everyKeyMatches_nil,
      getProp, jsKeys, lookupField, JSVal.typeofIsObject, JSVal.isArray,
      JSVal.strictEq]
  · simp [isEqualIntersection, everyKeyMatches_cons, everyKeyMatches_nil,
      getProp, jsKeys, lookupField, JSVal.typeofIsObject, JSVal.isArray,
      JSVal.strictEq]
  · simp [isEqualIntersection, JSVal.typeofIsObject, JSVal.isArray,
      jsIsEqual, jsIsEqualList, JSVal.strictEq]
  · intro v1 v2 hne
    have harr : ∀ v : JSVal, v.isArray = true → v.typeofIsObject = true := by
      intro v hv
      cases v <;> simp_all [JSVal.isArray, JSVal.typeofIsObject]
    have h3 : (!v1.typeofIsObject && !v2.typeofIsObject) = false := by
      cases hv1 : v1.isArray with
      | true => simp [harr v1 hv1]
      | false =>
        cases hv2 : v2.isArray with
        | true => simp [harr v2 hv2]
        | false => exact absurd (hv1.trans hv2.symm) hne
    have h2 : (v1.isArray && v2.isArray) = false := by
      cases hv1 : v1.isArray <;> cases hv2 : v2.isArray <;> simp_all
    have h1 : (v1.isArray || v2.isArray) = true := by
      cases hv1 : v1.isArray <;> cases hv2 : v2.isArray <;> simp_all
    simp [isEqualIntersection, h1, h2, h3]

/-- C4 witness: the quantified conjunct applied to `[]` and `0`. -/
theorem C4_asymmetry_witness :
    (JSVal.vArr []).isArray ≠ (JSVal.vNum 0).isArray ∧
    isEqualIntersection (.vArr []) (.vNum 0) = some false :=
  ⟨by simp [JSVal.isArray], C4_asymmetry.2.2.2 (.vArr []) (.vNum 0)
    (by simp [JSVal.isArray])⟩

/-- C10 counterexample: the criteria value `5` is a non-string primitive with
no enumerable keys and the candidate `6` is not an array, yet partial-match
returns `false` (the primitive `===` branch fires before the key loop), not
`true` as claimed. -/
theorem C10_vacuous_cex :
    jsKeys (.vNum 5) = some [] ∧
    (JSVal.vNum 6).isArray = false ∧
    isEqualIntersection (.vNum 5) (.vNum 6) = some false := by
  refine ⟨rfl, rfl, ?_⟩
  simp [isEqualIntersection, JSVal.typeofIsObject, JSVal.strictEq]

/-- C10 (amended): vacuous matching holds whenever the primitive `===`
branch is skipped: if the criteria value has no enumerable keys and is not an
array, the candidate is not an array, and at least one of the two has
`typeof === 'object'`, then partial-match returns `true` — in particular an
empty-object criteria matches any non-array candidate, and a numeric criteria
matches any non-array object candidate. -/
theorem C10_vacuous_amended :
    ∀ c v : JSVal, jsKeys c = some [] → c.isArray = false → v.isArray = false →
      (c.typeofIsObject || v.typeofIsObject) = true →
      isEqualIntersection c v = some true := by
  intro c v hk hca hva hor
  have h1 : (!c.typeofIsObject && !v.typeofIsObject) = false := by
    cases hc : c.typeofIsObject <;> cases hv : v.typeofIsObject <;> simp_all
  have h2 : (c.isArray && v.isArray) = false := by simp [hca, hva]
  have h3 : (c.isArray || v.isArray) = false := by simp [hca, hva]
  simp [isEqualIntersection, h1, h2, h3, hk, everyKeyMatches_nil]

/-- C10 witness: the amended theorem at the empty-object criteria and the
primitive candidate `7`. -/
theorem C10_vacuous_amended_witness :
    jsKeys (.vObj []) = some [] ∧
    (JSVal.vObj []).isArray = false ∧
    (JSVal.vNum 7).isArray = false ∧
    ((JSVal.vObj []).typeofIsObject || (JSVal.vNum 7).typeofIsObject) = true ∧
    isEqualIntersection (.vObj []) (.vNum 7) = some true :=
  ⟨rfl, rfl, rfl, rfl,
    C10_vacuous_amended (.vObj []) (.vNum 7) rfl rfl rfl rfl⟩

/-- C9: deletion finality — after `deleteEntry k`, `getEntry k` is absent;
repeating `deleteEntry k` changes nothing; and `deleteEntry` of a key with no
record returns the store unchanged (and, being total, without error). -/
theorem C9_deletion_final (s : StoreState) (k : Nat) :
    getEntry (deleteEntry s k) k = none ∧
    deleteEntry (deleteEntry s k) k = deleteEntry s k ∧
    (getEntry s k = none → deleteEntry s k = s) := by
  refine ⟨?_, ?_, ?_⟩
  · simp only [getEntry, deleteEntry]
    rw [List.find?_eq_none.mpr]
    · rfl
    · intro x hx
      have hb := List.of_mem_filter hx
      simp only [bne_iff_ne, ne_eq] at hb
      simp [hb]
  · simp only [deleteEntry]
    congr 1
    rw [List.filter_filter]
    apply List.filter_congr
    intro a _
    simp
  · intro h
    simp only [getEntry, Option.map_eq_none'] at h
    have hall := List.find?_eq_none.mp h
    simp only [deleteEntry]
    have hid : s.records.filter (fun r => r.1 != k) = s.records := by
      apply List.filter_eq_self.mpr
      intro a ha
      simpa [bne] using hall a ha
    rw [hid]

/-- C9 witness: deletion finality at the singleton store and key 1. -/
theorem C9_deletion_final_witness :
    getEntry (deleteEntry sampleStore1 1) 1 = none ∧
    deleteEntry (deleteEntry sampleStore1 1) 1 = deleteEntry sampleStore1 1 ∧
    (getEntry sampleStore1 1 = none → deleteEntry sampleStore1 1 = sampleStore1) :=
  C9_deletion_final sampleStore1 1

/-- C6: round-trip — `addEntry` returns the key assigned to the new record,
and `getEntry` at that key returns the entry unchanged (given the
`autoIncrement` invariant that all stored keys are below the generator). -/
theorem C6_roundTrip (s : StoreState) (e : TranslationEntry)
    (hfresh : ∀ r ∈ s.records, r.1 < s.nextKey) :
    (addEntry s e).2 = s.nextKey ∧
    getEntry (addEntry s e).1 (addEntry s e).2 = some e := by
  refine ⟨rfl, ?_⟩
  simp only [getEntry, addEntry]
  have hfind : ∀ l : List (Nat × TranslationEntry), (∀ r ∈ l, r.1 < s.nextKey) →
      (l ++ [(s.nextKey, e)]).find? (fun r => r.1 == s.nextKey) =
        some (s.nextKey, e) := by
    intro l
    induction l with
    | nil => intro _; simp
    | cons a tail ih =>
      intro hl
      have hne : (a.1 == s.nextKey) = false := by
        have := hl a (List.mem_cons_self _ _)
        simp [Nat.ne_of_lt this]
      simp only [List.cons_append, List.find?_cons, hne]
      exact ih (fun r hr => hl r (List.mem_cons_of_mem _ hr))
  rw [hfind s.records hfresh]
  rfl

/-- C6 witness: round-trip at the singleton store with a fresh entry. -/
theorem C6_roundTrip_witness :
    (∀ r ∈ sampleStore1.records, r.1 < sampleStore1.nextKey) ∧
    ((addEntry sampleStore1 nestedEntry).2 = sampleStore1.nextKey ∧
      getEntry (addEntry sampleStore1 nestedEntry).1
        (addEntry sampleStore1 nestedEntry).2 = some nestedEntry) := by
  have hfresh : ∀ r ∈ sampleStore1.records, r.1 < sampleStore1.nextKey := by
    intro r hr
    simp only [sampleStore1, List.mem_singleton] at hr
    simp [hr, sampleStore1]
  exact ⟨hfresh, C6_roundTrip sampleStore1 nestedEntry hfresh⟩

/-- C5: pagination completeness and ordering — `getEntries(0, N, desc)` is
the full collection in strictly decreasing key order; `getEntries` with no
offset and no limit in ascending order is the full collection in increasing
key order; two adjacent pages concatenate (in either order) to the full
page; an offset at or past the collection size yields the empty sequence; a
zero limit yields the empty sequence. -/
theorem C5_pagination (s : StoreState)
    (hsorted : List.Sorted (· < ·) (s.records.map Prod.fst)) :
    (getEntries s (some 0) (some s.records.length) .desc = s.records.reverse ∧
      List.Sorted (· > ·)
        ((getEntries s (some 0) (some s.records.length) .desc).map Prod.fst)) ∧
    getEntries s none none .asc = s.records ∧
    (∀ k, k ≤ s.records.length → ∀ ord,
      getEntries s (some 0) (some k) ord ++
        getEntries s (some k) (some (s.records.length - k)) ord =
      getEntries s (some 0) (some s.records.length) ord) ∧
    (∀ m, s.records.length ≤ m → ∀ lim ord, getEntries s (some m) lim ord = []) ∧
    (∀ fro ord, getEntries s fro (some 0) ord = []) := by
  have hspec : ∀ (fro lim : Option Nat) (ord : SortOrder),
      getEntries s fro lim ord =
        (match lim with
         | some lm =>
           (((match ord with
              | .desc => s.records.reverse
              | .asc => s.records).drop (fro.getD 0)).take lm)
         | none =>
           (match ord with
            | .desc => s.records.reverse
            | .asc => s.records).drop (fro.getD 0)) := by
    intro fro lim ord
    simp only [getEntries]
    exact getEntriesLoop_spec fro lim _
  have hlen : ∀ ord : SortOrder,
      (match ord with
       | .desc => s.records.reverse
       | .asc => s.records).length = s.records.length := by
    intro ord
    cases ord <;> simp
  have h1a : getEntries s (some 0) (some s.records.length) .desc =
      s.records.reverse := by
    rw [hspec]
    simp
  constructor
  · constructor
    · exact h1a
    · rw [h1a, List.map_reverse]
      exact List.pairwise_reverse.mpr (by simpa [flip] using hsorted)
  · constructor
    · rw [hspec]
      simp
    · constructor
      · intro k hk ord
        rw [hspec, hspec, hspec]
        simp only [Option.getD_some, List.drop_zero]
        have hl := hlen ord
        set l := (match ord with
          | SortOrder.desc => s.records.reverse
          | SortOrder.asc => s.records) with hldef
        have h1 : (l.drop k).take (s.records.length - k) = l.drop k := by
          apply List.take_of_length_le
          simp [hl]
        have h2 : l.take s.records.length = l := by
          apply List.take_of_length_le
          simp [hl]
        rw [h1, h2, List.take_append_drop]
      · constructor
        · intro m hm lim ord
          rw [hspec]
          have hnil : (match ord with
              | SortOrder.desc => s.records.reverse
              | SortOrder.asc => s.records).drop m = [] := by
            apply List.drop_eq_nil_of_le
            rw [hlen ord]
            exact hm
          cases lim <;> simp [hnil]
        · intro fro ord
          rw [hspec]
          simp

/-- C5 witness: pagination at a two-record store, with the page split `k = 1`,
the out-of-range offset `5`, and the zero limit. -/
theorem C5_pagination_witness :
    List.Sorted (· < ·) (sampleStore2.records.map Prod.fst) ∧
    (getEntries sampleStore2 (some 0) (some sampleStore2.records.length) .desc =
        sampleStore2.records.reverse ∧
      List.Sorted (· > ·) ((getEntries sampleStore2 (some 0)
        (some sampleStore2.records.length) .desc).map Prod.fst)) ∧
    getEntries sampleStore2 none none .asc = sampleStore2.records ∧
    (getEntries sampleStore2 (some 0) (some 1) .desc ++
        getEntries sampleStore2 (some 1)
          (some (sampleStore2.records.length - 1)) .desc =
      getEntries sampleStore2 (some 0)
        (some sampleStore2.records.length) .desc) ∧
    getEntries sampleStore2 (some 5) none .asc = [] ∧
    getEntries sampleStore2 none (some 0) .desc = [] := by
  have hsorted : List.Sorted (· < ·) (sampleStore2.records.map Prod.fst) := by
    decide
  refine ⟨hsorted, (C5_pagination sampleStore2 hsorted).1,
    (C5_pagination sampleStore2 hsorted).2.1,
    (C5_pagination sampleStore2 hsorted).2.2.1 1 (by decide) .desc,
    (C5_pagination sampleStore2 hsorted).2.2.2.1 5 (by decide) none .asc,
    (C5_pagination sampleStore2 hsorted).2.2.2.2 none .desc⟩

/-- C2: when `criteria.translation.originalText` is present (a string),
`findEntry` considers exactly the index bucket for that string, tests the
recursive partial-match of the criteria against each whole stored entry, and
returns the first matching `{key, data}` in index iteration order — or an
absent result, not an error, when no record matches (`find?` returns the
first hit and `none` on a miss, which is precisely the loop's short-circuit
behaviour). -/
theorem C2_findEntry_firstMatch (s : StoreState) (c : JSVal) (t : String)
    (hc : criteriaWF c = true)
    (hs : ∀ r ∈ s.records, entryWF r.2 = true)
    (hot : criteriaOriginalText c = .vStr t) :
    findEntry s c = .ok ((indexBucket s (.vStr t)).find?
      (fun r => isEqualIntersection c r.2.toJS == some true)) := by
  rcases criteriaOriginalText_shape c hc with hu | ⟨t', tf, hot', htr, _⟩
  · rw [hu] at hot
    cases hot
  · have ht' : t' = t := by
      rw [hot] at hot'
      cases hot'
      rfl
    subst ht'
    cases c with
    | vObj fields =>
      have hlk : lookupField fields "translation" = some (.vObj tf) := by
        have hgp : getProp (.vObj fields) "translation" =
            some ((lookupField fields "translation").getD .vUndefined) := by
          simp [getProp]
        rw [hgp] at htr
        have hgd := Option.some.inj htr
        cases hlf : lookupField fields "translation" with
        | none => rw [hlf] at hgd; simp at hgd
        | some w => rw [hlf] at hgd; simp at hgd; rw [hgd]
      have hfe : findEntry s (.vObj fields) =
          findLoop (.vObj fields) (indexBucket s (.vStr t')) := by
        simp [findEntry, hot, JSVal.isUndef, isValidIDBKey]
      have hno : ∀ r ∈ indexBucket s (.vStr t'),
          isEqualIntersection (.vObj fields) r.2.toJS ≠ none := by
        intro r hr
        exact iei_criteria_entry_ne_none fields r.2 hc hlk
          (hs r (List.mem_of_mem_filter hr))
      rw [hfe]
      exact findLoop_eq_find _ _ hno
    | vStr v => simp [criteriaWF] at hc
    | vNum v => simp [criteriaWF] at hc
    | vBool v => simp [criteriaWF] at hc
    | vNull => simp [criteriaWF] at hc
    | vUndefined => simp [criteriaWF] at hc
    | vArr v => simp [criteriaWF] at hc

/-- C2 witness: lookup at the singleton store with criteria
`{translation: {originalText: "x"}}`, which matches the stored record. -/
theorem C2_findEntry_firstMatch_witness :
    criteriaWF sampleCriteriaX = true ∧
    (∀ r ∈ sampleStore1.records, entryWF r.2 = true) ∧
    criteriaOriginalText sampleCriteriaX = .vStr "x" ∧
    findEntry sampleStore1 sampleCriteriaX =
      .ok ((indexBucket sampleStore1 (.vStr "x")).find?
        (fun r => isEqualIntersection sampleCriteriaX r.2.toJS == some true)) := by
  have hc : criteriaWF sampleCriteriaX = true := rfl
  have hs : ∀ r ∈ sampleStore1.records, entryWF r.2 = true := by
    intro r hr
    have hr1 := List.mem_singleton.mp hr
    subst hr1
    rfl
  exact ⟨hc, hs, rfl,
    C2_findEntry_firstMatch sampleStore1 sampleCriteriaX "x" hc hs rfl⟩

/-- C8: under typed criteria and well-typed stored entries, `findEntry`
raises an error exactly when `criteria.translation.originalText` is absent;
in that case the raised error is the explicit precondition error and is the
same for every store (it is raised before any record is consulted); when
`originalText` is present the call returns an `ok` result, so a lookup miss
is an absent result, never an error. -/
theorem C8_error_iff_missing (s : StoreState) (c : JSVal)
    (hc : criteriaWF c = true)
    (hs : ∀ r ∈ s.records, entryWF r.2 = true) :
    ((∃ err, findEntry s c = .error err) ↔
      criteriaOriginalText c = .vUndefined) ∧
    (criteriaOriginalText c = .vUndefined →
      ∀ s' : StoreState, findEntry s' c = .error .missingOriginalText) ∧
    (criteriaOriginalText c ≠ .vUndefined →
      ∃ res, findEntry s c = .ok res) := by
  rcases criteriaOriginalText_shape c hc with hu | ⟨t, tf, hot, htr, _⟩
  · refine ⟨?_, ?_, ?_⟩
    · constructor
      · intro _
        exact hu
      · intro _
        exact ⟨.missingOriginalText, by simp [findEntry, hu, JSVal.isUndef]⟩
    · intro _ s'
      simp [findEntry, hu, JSVal.isUndef]
    · intro hne
      exact absurd hu hne
  · have hok : ∃ res, findEntry s c = .ok res := by
      cases c with
      | vObj fields =>
        have hlk : lookupField fields "translation" = some (.vObj tf) := by
          have hgp : getProp (.vObj fields) "translation" =
              some ((lookupField fields "translation").getD .vUndefined) := by
            simp [getProp]
          rw [hgp] at htr
          have hgd := Option.some.inj htr
          cases hlf : lookupField fields "translation" with
          | none => rw [hlf] at hgd; simp at hgd
          | some w => rw [hlf] at hgd; simp at hgd; rw [hgd]
        have hfe : findEntry s (.vObj fields) =
            findLoop (.vObj fields) (indexBucket s (.vStr t)) := by
          simp [findEntry, hot, JSVal.isUndef, isValidIDBKey]
        have hno : ∀ r ∈ indexBucket s (.vStr t),
            isEqualIntersection (.vObj fields) r.2.toJS ≠ none := by
          intro r hr
          exact iei_criteria_entry_ne_none fields r.2 hc hlk
            (hs r (List.mem_of_mem_filter hr))
        rw [hfe, findLoop_eq_find _ _ hno]
        exact ⟨_, rfl⟩
      | vStr v => simp [criteriaWF] at hc
      | vNum v => simp [criteriaWF] at hc
      | vBool v => simp [criteriaWF] at hc
      | vNull => simp [criteriaWF] at hc
      | vUndefined => simp [criteriaWF] at hc
      | vArr v => simp [criteriaWF] at hc
    refine ⟨?_, ?_, fun _ => hok⟩
    · constructor
      · rintro ⟨err, herr⟩
        obtain ⟨res, hres⟩ := hok
        rw [hres] at herr
        cases herr
      · intro habs
        rw [hot] at habs
        cases habs
    · intro habs
      rw [hot] at habs
      cases habs

/-- C8 witness: the typed criteria `{translation: {originalText: "x"}}`
against the well-typed singleton store. -/
theorem C8_error_iff_missing_witness :
    criteriaWF sampleCriteriaX = true ∧
    (∀ r ∈ sampleStore1.records, entryWF r.2 = true) ∧
    ((∃ err, findEntry sampleStore1 sampleCriteriaX = .error err) ↔
      criteriaOriginalText sampleCriteriaX = .vUndefined) ∧
    (criteriaOriginalText sampleCriteriaX ≠ .vUndefined →
      ∃ res, findEntry sampleStore1 sampleCriteriaX = .ok res) := by
  have hc : criteriaWF sampleCriteriaX = true := rfl
  have hs : ∀ r ∈ sampleStore1.records, entryWF r.2 = true := by
    intro r hr
    have hr1 := List.mem_singleton.mp hr
    subst hr1
    rfl
  have hmain := C8_error_iff_missing sampleStore1 sampleCriteriaX hc hs
  exact ⟨hc, hs, hmain.1, hmain.2.2⟩

/-- C1 counterexample: criteria with a nested composite field (the spec
treats `translation` as an opaque nested record).  The stored record's
`originalText` equals the criteria's, and the recursive partial-match used by
`findEntry` holds over the criteria's keys, yet `deleteEntries` leaves the
record in place: its per-key `===` test compares the two `{a: 1}` objects by
reference, and a stored structured clone is never reference-equal to the
caller's criteria object. -/
theorem C1_nested_not_deleted :
    isEqualIntersection (.vObj nestedCriteria) (.vObj nestedEntry.translation) =
      some true ∧
    (lookupField nestedCriteria "originalText").getD .vUndefined = .vStr "x" ∧
    recordIndexKey nestedEntry = some (.vStr "x") ∧
    deleteEntries nestedStore nestedCriteria = .ok nestedStore := by
  refine ⟨?_, rfl, rfl, rfl⟩
  simp [nestedCriteria, nestedEntry, isEqualIntersection, everyKeyMatches_cons,
    everyKeyMatches_nil, getProp, jsKeys, lookupField, JSVal.typeofIsObject,
    JSVal.isArray, JSVal.strictEq]

/-- C1 (amended): for a record in the criteria's index bucket,
`deleteEntries` removes it exactly when every key of the criteria passes the
shallow `===` test against the record's `translation`; when all the involved
field values are primitives with non-`'object'` typeof (e.g. flat
string-valued translations), this coincides with the recursive partial-match
used by `findEntry`, restricted to the criteria's keys. -/
theorem C1_amended_shallow (s : StoreState) (cf : List (String × JSVal))
    (ot : JSVal)
    (hot : (lookupField cf "originalText").getD .vUndefined = ot)
    (hvalid : isValidIDBKey ot = true)
    (hnodup : (s.records.map Prod.fst).Nodup)
    (r : Nat × TranslationEntry) (hr : r ∈ s.records)
    (hidx : inIndexAt ot r = true)
    (hflat : ∀ k ∈ cf.map Prod.fst,
      ((lookupField cf k).getD .vUndefined).typeofIsObject = false ∧
      ((lookupField r.2.translation k).getD .vUndefined).typeofIsObject = false) :
    ∃ s', deleteEntries s cf = .ok s' ∧
      (r ∉ s'.records ↔
        isEqualIntersection (.vObj cf) (.vObj r.2.translation) = some true) := by
  refine ⟨_, deleteEntries_ok s cf hot hvalid hnodup, ?_⟩
  have hiei : isEqualIntersection (.vObj cf) (.vObj r.2.translation) =
      some (deleteMatches cf r.2.translation) := by
    have hexp : isEqualIntersection (.vObj cf) (.vObj r.2.translation) =
        everyKeyMatches (.vObj cf) (.vObj r.2.translation) (cf.map Prod.fst) := by
      simp [isEqualIntersection, JSVal.typeofIsObject, JSVal.isArray, jsKeys]
    rw [hexp, everyKeyMatches_flat]
    · simp [deleteMatches, getProp]
    · intro k hk
      exact ⟨_, _, by simp [getProp], by simp [getProp],
        (hflat k hk).1, (hflat k hk).2⟩
  rw [hiei]
  constructor
  · intro hnot
    by_contra hne
    have hdm : deleteMatches cf r.2.translation = false := by
      cases hdm : deleteMatches cf r.2.translation
      · rfl
      · exact absurd (by rw [hdm]) hne
    apply hnot
    apply List.mem_filter.mpr
    exact ⟨hr, by simp [hidx, hdm]⟩
  · intro hsome
    have hdm : deleteMatches cf r.2.translation = true := Option.some.inj hsome
    intro hmem
    have hkeep := List.of_mem_filter hmem
    simp [hidx, hdm] at hkeep

/-- C1 witness: flat string criteria at the singleton store — the record is
removed, and the shallow test agrees with the recursive partial-match. -/
theorem C1_amended_shallow_witness :
    (lookupField flatCriteriaX "originalText").getD .vUndefined = .vStr "x" ∧
    inIndexAt (.vStr "x") (1, sampleEntryX) = true ∧
    (∃ s', deleteEntries sampleStore1 flatCriteriaX = .ok s' ∧
      ((1, sampleEntryX) ∉ s'.records ↔
        isEqualIntersection (.vObj flatCriteriaX)
          (.vObj sampleEntryX.translation) = some true)) := by
  have hflat : ∀ k ∈ flatCriteriaX.map Prod.fst,
      ((lookupField flatCriteriaX k).getD .vUndefined).typeofIsObject = false ∧
      ((lookupField sampleEntryX.translation k).getD
        .vUndefined).typeofIsObject = false := by
    intro k hk
    simp only [flatCriteriaX, List.map_cons, List.map_nil,
      List.mem_singleton] at hk
    subst hk
    exact ⟨rfl, rfl⟩
  exact ⟨rfl, rfl, C1_amended_shallow sampleStore1 flatCriteriaX (.vStr "x")
    rfl rfl (by decide) (1, sampleEntryX) (List.mem_singleton.mpr rfl) rfl hflat⟩

/-- C7: atomicity of bulk deletion — all deletions of one `deleteEntries`
call are staged in a single read-write transaction: a failure after any
number of cursor iterations aborts the transaction and leaves the durable
store exactly as before the call, while the committed run removes exactly
the qualifying records (bucket membership plus criteria match), never a
partial subset. -/
theorem C7_atomicity (s : StoreState) (cf : List (String × JSVal)) (ot : JSVal)
    (hot : (lookupField cf "originalText").getD .vUndefined = ot)
    (hvalid : isValidIDBKey ot = true)
    (hnodup : (s.records.map Prod.fst).Nodup) :
    (∀ j, deleteEntriesFailAt s cf j = s) ∧
    deleteEntries s cf = .ok ⟨s.nextKey, s.records.filter (fun r =>
      !(inIndexAt ot r && deleteMatches cf r.2.translation))⟩ :=
  ⟨fun _ => rfl, deleteEntries_ok s cf hot hvalid hnodup⟩

/-- C7 witness: at the singleton store and flat criteria, aborting after one
iteration leaves the store unchanged, while the committed run deletes the
qualifying record. -/
theorem C7_atomicity_witness :
    deleteEntriesFailAt sampleStore1 flatCriteriaX 1 = sampleStore1 ∧
    deleteEntries sampleStore1 flatCriteriaX =
      .ok ⟨sampleStore1.nextKey, sampleStore1.records.filter (fun r =>
        !(inIndexAt (.vStr "x") r &&
          deleteMatches flatCriteriaX r.2.translation))⟩ ∧
    sampleStore1.records.filter (fun r =>
      !(inIndexAt (.vStr "x") r &&
        deleteMatches flatCriteriaX r.2.translation)) = [] := by
  have hmain := C7_atomicity sampleStore1 flatCriteriaX (.vStr "x") rfl rfl
    (by decide)
  exact ⟨hmain.1 1, hmain.2, rfl⟩

end TranslationsData
